import Mathlib

/-!
Verification of the metered-concurrency counting semaphore
(`src/metered_concurrency.rs`).

The Rust code holds a single shared atomic counter (`AtomicUint`, modelled
as `Nat` since `usize` is unsigned) and a fixed backoff duration
(`Duration`, modelled as `Nat` ticks).  Its atomic primitives are shallowly
embedded as pure functions; `acquire`'s spin loop is embedded as a fueled
recursion over an interference schedule; the concurrent system is a labelled
step relation over semaphore configurations.
-/

namespace MeteredConcurrency

/-- Model of `AtomicUint::compare_and_swap(expected, newVal)` acting on the
current shared value `current`.  Returns the shared value after the
operation together with the previous value (Rust's return value); the swap
succeeded exactly when the returned previous value equals `expected`. -/
def compare_and_swap (current expected newVal : Nat) : Nat × Nat :=
  if current = expected then (newVal, current) else (current, current)

/-- Model of `AtomicUint::fetch_add(k)` on current shared value `current`:
the shared value after the operation. -/
def fetch_add (current k : Nat) : Nat :=
  current + k

/-- Model of `struct CountingSemaphore { count: AtomicUint, backoff: Duration }`.
`count` is the remaining resource count, `backoff` the contention sleep unit. -/
structure CountingSemaphore where
  count : Nat
  backoff : Nat
deriving DecidableEq, Repr

/-- Model of `CountingSemaphore::new(max, backoff)`:
`CountingSemaphore { count: AtomicUint::new(max), backoff: backoff }`. -/
def CountingSemaphore.new (max backoff : Nat) : CountingSemaphore :=
  { count := max, backoff := backoff }

/-- Model of `CountingSemaphore::count()`: `self.count.load(SeqCst)`.
(Named `countLoad` because the Rust method shares its name with the field.) -/
def CountingSemaphore.countLoad (s : CountingSemaphore) : Nat :=
  s.count

/-- Model of the spin loop inside `CountingSemaphore::acquire`.

`bu` is `self.backoff`; `backoff` is the local mutable backoff variable
(initialised by the caller to `self.backoff`, per `let mut backoff = self.backoff`).
Each loop iteration loads the shared counter and then attempts a
compare-and-swap; between and during iterations other threads may change
the shared counter, so the schedule `sched` supplies, for each iteration,
the pair `(obs, cur)`: the value returned by the `load` and the shared
value at the moment the compare-and-swap executes.  `fuel` bounds the
number of iterations of the (in Rust unbounded) loop.

Result: `(outcome, sleeps, casLog)` where `outcome` is `some c` with `c`
the shared counter left by the successful compare-and-swap (the iteration
in which the loop breaks and the guard is returned), or `none` if fuel or
schedule ran out while still spinning; `sleeps` lists the durations slept,
in order; `casLog` lists each executed compare-and-swap as
`(expected, newVal)`. -/
def acquireLoop (bu : Nat) : Nat → Nat → List (Nat × Nat) →
    Option Nat × List Nat × List (Nat × Nat)
  | 0, _, _ => (none, [], [])
  | _ + 1, _, [] => (none, [], [])
  | fuel + 1, backoff, (obs, cur) :: rest =>
    if obs = 0 then
      -- `count == 0`: short-circuit, no compare-and-swap; sleep and retry
      let r := acquireLoop bu fuel (backoff + bu) rest
      (r.1, backoff :: r.2.1, r.2.2)
    else
      let cas := compare_and_swap cur obs (obs - 1)
      if cas.2 ≠ obs then
        -- compare-and-swap failed: sleep and retry with increased backoff
        let r := acquireLoop bu fuel (backoff + bu) rest
        (r.1, backoff :: r.2.1, (obs, obs - 1) :: r.2.2)
      else
        -- success: break out of the loop and return the guard
        (some cas.1, [], [(obs, obs - 1)])

/-- Model of `CountingSemaphore::acquire(&self)`: runs the spin loop with the
local backoff variable initialised to `self.backoff`. -/
def CountingSemaphore.acquire (self : CountingSemaphore) (fuel : Nat)
    (sched : List (Nat × Nat)) : Option Nat × List Nat × List (Nat × Nat) :=
  acquireLoop self.backoff fuel self.backoff sched

/-- A configuration of the concurrent system: the shared counter, the number
of currently outstanding (not yet dropped) guards, and the stored backoff
field. -/
structure SemState where
  count : Nat
  held : Nat
  backoff : Nat
deriving DecidableEq, Repr

/-- Labels for atomic events of the system. -/
inductive Act
  | acq
  | rel
  | fail
  | read
deriving DecidableEq, Repr

/-- One atomic event of the concurrent system, acting on a configuration.

* `acq`: a successful compare-and-swap inside some thread's `acquire`
  (observed value `obs`, loaded earlier and possibly stale) — the thread
  exits the loop holding a new guard.
* `fail`: a loop iteration of `acquire` that does not claim a permit
  (observed zero or failed compare-and-swap); the shared counter is
  unchanged (a failed compare-and-swap writes nothing).
* `rel`: a live guard is dropped; `Drop for CountingSemaphoreGuard` runs
  `self.sem.count.fetch_add(1, SeqCst)`.  A guard can be dropped only
  while it is live (`held ≠ 0`), so each guard releases at most once.
* `read`: `count()` loads the counter; no mutation. -/
inductive SemStep : SemState → Act → SemState → Prop
  | acq (s : SemState) (obs : Nat) (hobs : obs ≠ 0)
      (hcas : (compare_and_swap s.count obs (obs - 1)).2 = obs) :
      SemStep s Act.acq
        ⟨(compare_and_swap s.count obs (obs - 1)).1, s.held + 1, s.backoff⟩
  | fail (s : SemState) (obs : Nat)
      (h : obs = 0 ∨ (compare_and_swap s.count obs (obs - 1)).2 ≠ obs) :
      SemStep s Act.fail
        ⟨if obs = 0 then s.count else (compare_and_swap s.count obs (obs - 1)).1,
         s.held, s.backoff⟩
  | rel (s : SemState) (hheld : s.held ≠ 0) :
      SemStep s Act.rel ⟨fetch_add s.count 1, s.held - 1, s.backoff⟩
  | read (s : SemState) :
      SemStep s Act.read s

/-- A finite interleaved execution: a sequence of atomic events. -/
inductive SemSteps : SemState → List Act → SemState → Prop
  | nil (s : SemState) : SemSteps s [] s
  | cons {s s' s'' : SemState} {a : Act} {tr : List Act} :
      SemStep s a s' → SemSteps s' tr s'' → SemSteps s (a :: tr) s''

/-- The configuration right after `CountingSemaphore::new(max, bu)`:
counter `max`, no guards outstanding. -/
def initState (max bu : Nat) : SemState :=
  ⟨max, 0, bu⟩

/-- The returned previous value of a compare-and-swap is always the shared
value at the moment it executed; hence it succeeds exactly when the shared
value equalled the expected one. -/
theorem compare_and_swap_snd (current expected newVal : Nat) :
    (compare_and_swap current expected newVal).2 = current := by
  unfold compare_and_swap
  split_ifs <;> rfl

/-- A successful compare-and-swap leaves the new value in the shared cell. -/
theorem compare_and_swap_success (current expected newVal : Nat)
    (h : current = expected) :
    (compare_and_swap current expected newVal).1 = newVal := by
  simp [compare_and_swap, h]

/-- Every atomic event preserves the sum `count + held` and the stored
backoff field. -/
theorem semStep_preserve {s s' : SemState} {a : Act} (h : SemStep s a s') :
    s'.count + s'.held = s.count + s.held ∧ s'.backoff = s.backoff := by
  cases h with
  | acq obs hobs hcas =>
      rw [compare_and_swap_snd] at hcas
      rw [compare_and_swap_success s.count obs (obs - 1) hcas]
      refine ⟨?_, rfl⟩
      show obs - 1 + (s.held + 1) = s.count + s.held
      omega
  | fail obs h =>
      constructor
      · split_ifs with h0
        · rfl
        · rcases h with h | hne
          · exact absurd h h0
          · rw [compare_and_swap_snd] at hne
            simp [compare_and_swap, hne]
      · split_ifs <;> rfl
  | rel hheld =>
      exact ⟨by simp [fetch_add]; omega, rfl⟩
  | read =>
      exact ⟨rfl, rfl⟩

/-- Along any execution, `count + held` and the backoff field are constant. -/
theorem semSteps_preserve {s s' : SemState} {tr : List Act} (h : SemSteps s tr s') :
    s'.count + s'.held = s.count + s.held ∧ s'.backoff = s.backoff := by
  induction h with
  | nil t => exact ⟨rfl, rfl⟩
  | cons hstep _ ih =>
      have h1 := semStep_preserve hstep
      exact ⟨by omega, by rw [ih.2, h1.2]⟩

/-- Along any execution, the number of outstanding guards changes by the
balance of successful acquires over guard drops. -/
theorem semSteps_held_count {s s' : SemState} {tr : List Act} (h : SemSteps s tr s') :
    s'.held + tr.count Act.rel = s.held + tr.count Act.acq := by
  induction h with
  | nil t => simp
  | cons hstep _ ih =>
      rw [List.count_cons, List.count_cons]
      cases hstep with
      | acq obs hobs hcas => simp at ih ⊢; omega
      | fail obs h => simp at ih ⊢; omega
      | rel hheld => simp at ih ⊢; omega
      | read => simp at ih ⊢; omega

/-- C1: starting from `new(max, _)` (counter `max`, no guards), under an
arbitrary interleaving of acquire iterations, `count()` reads and guard
drops — where a guard can be dropped only while it is live, i.e. at most
once — every reachable configuration satisfies `0 <= count <= max`. -/
theorem C1_counter_invariant (max bu : Nat) (tr : List Act) (s : SemState)
    (h : SemSteps (initState max bu) tr s) :
    (0 : Int) ≤ (s.count : Int) ∧ s.count ≤ max := by
  have hp := (semSteps_preserve h).1
  simp [initState] at hp
  exact ⟨Int.natCast_nonneg s.count, by omega⟩

/-- C1 witness: a concrete two-step execution (one successful acquire, one
guard drop) from `new(2, 7)`, checked at its final configuration. -/
theorem C1_counter_invariant_witness :
    (0 : Int) ≤ (((⟨2, 0, 7⟩ : SemState)).count : Int) ∧
    (⟨2, 0, 7⟩ : SemState).count ≤ 2 :=
  C1_counter_invariant 2 7 [Act.acq, Act.rel] ⟨2, 0, 7⟩
    (SemSteps.cons (SemStep.acq (initState 2 7) 2 (by decide) (by decide))
      (SemSteps.cons (SemStep.rel ⟨1, 1, 7⟩ (by decide)) (SemSteps.nil _)))

/-- C3: dropping a live guard increments the counter by exactly 1,
unconditionally (`fetch_add(1)`, no failure condition); and in the
execution so far the number of drop events is strictly below the number of
successful acquires (so the drop about to happen belongs to a guard that
has released nothing yet: one release event per guard). -/
theorem C3_release_once (max bu : Nat) (tr : List Act) (s s' : SemState)
    (htr : SemSteps (initState max bu) tr s) (hstep : SemStep s Act.rel s') :
    s'.count = s.count + 1 ∧ tr.count Act.rel < tr.count Act.acq := by
  have hc := semSteps_held_count htr
  simp [initState] at hc
  cases hstep with
  | rel hheld => exact ⟨rfl, by omega⟩

/-- C3 witness: after one successful acquire from `new(1, 5)`, dropping the
guard raises the counter from 0 back to 1. -/
theorem C3_release_once_witness :
    (⟨1, 0, 5⟩ : SemState).count = (⟨0, 1, 5⟩ : SemState).count + 1 ∧
    [Act.acq].count Act.rel < [Act.acq].count Act.acq :=
  C3_release_once 1 5 [Act.acq] ⟨0, 1, 5⟩ ⟨1, 0, 5⟩
    (SemSteps.cons (SemStep.acq (initState 1 5) 1 (by decide) (by decide))
      (SemSteps.nil _))
    (SemStep.rel ⟨0, 1, 5⟩ (by decide))

/-- C4: an execution consisting of `N` successful acquires followed by `N`
guard drops (no acquire left pending, no other events) leaves the counter —
and hence what `count()` returns — exactly as it was before the sequence. -/
theorem C4_conservation (N : Nat) (s0 s1 : SemState)
    (h : SemSteps s0 (List.replicate N Act.acq ++ List.replicate N Act.rel) s1) :
    s1.count = s0.count ∧ s1.held = s0.held := by
  have h1 := (semSteps_preserve h).1
  have h2 := semSteps_held_count h
  simp [List.count_replicate] at h2
  omega

/-- C4 witness: one acquire then one drop from counter 1 restores counter 1. -/
theorem C4_conservation_witness :
    (⟨1, 0, 3⟩ : SemState).count = (⟨1, 0, 3⟩ : SemState).count ∧
    (⟨1, 0, 3⟩ : SemState).held = (⟨1, 0, 3⟩ : SemState).held :=
  C4_conservation 1 ⟨1, 0, 3⟩ ⟨1, 0, 3⟩
    (SemSteps.cons (SemStep.acq ⟨1, 0, 3⟩ 1 (by decide) (by decide))
      (SemSteps.cons (SemStep.rel ⟨0, 1, 3⟩ (by decide)) (SemSteps.nil _)))

/-- C9: `new(max, backoff_unit)` is a pure value construction with no failure
condition: it initialises the counter to `max` and stores `backoff_unit`, and
`count()` called immediately afterwards returns exactly `max`. -/
theorem C9_new_count (max bu : Nat) :
    CountingSemaphore.new max bu = ⟨max, bu⟩ ∧
    (CountingSemaphore.new max bu).countLoad = max :=
  ⟨rfl, rfl⟩

/-- If the spin loop returns a guard, the iteration at which it broke out
(index `sl.length`, one sleep per earlier failed iteration) observed a
nonzero value `obs` that still equalled the shared counter when the
compare-and-swap ran, and the counter was left at `obs - 1`. -/
theorem acquireLoop_success (bu : Nat) : ∀ (fuel b : Nat) (sched : List (Nat × Nat))
    (c : Nat) (sl : List Nat) (cl : List (Nat × Nat)),
    acquireLoop bu fuel b sched = (some c, sl, cl) →
    ∃ obs, sched[sl.length]? = some (obs, obs) ∧ obs ≠ 0 ∧ c = obs - 1 ∧ c + 1 = obs := by
  intro fuel
  induction fuel with
  | zero => intro b sched c sl cl h; simp [acquireLoop] at h
  | succ fuel ih =>
      intro b sched c sl cl h
      match sched with
      | [] => simp [acquireLoop] at h
      | (obs, cur) :: rest =>
          rw [acquireLoop] at h
          rcases hr : acquireLoop bu fuel (b + bu) rest with ⟨o, sl2, cl2⟩
          rw [hr] at h
          simp only [compare_and_swap_snd] at h
          by_cases h0 : obs = 0
          · rw [if_pos h0] at h
            simp only [Prod.mk.injEq] at h
            obtain ⟨h1, h2, h3⟩ := h
            subst h1; subst h3
            obtain ⟨ov, hget, hne, hc, hsum⟩ := ih (b + bu) rest c sl2 cl2 hr
            subst h2
            exact ⟨ov, by simpa using hget, hne, hc, hsum⟩
          · rw [if_neg h0] at h
            by_cases hcc : cur = obs
            · rw [if_neg (by simpa using hcc)] at h
              simp only [Prod.mk.injEq, Option.some.injEq] at h
              obtain ⟨h1, h2, h3⟩ := h
              subst h2
              have hcv : c = obs - 1 := by
                rw [← h1]; simp [compare_and_swap, hcc]
              exact ⟨obs, by simp [hcc], h0, hcv, by omega⟩
            · rw [if_pos (by simpa using hcc)] at h
              simp only [Prod.mk.injEq] at h
              obtain ⟨h1, h2, h3⟩ := h
              subst h1; subst h3
              obtain ⟨ov, hget, hne, hc, hsum⟩ := ih (b + bu) rest c sl2 cl2 hr
              subst h2
              exact ⟨ov, by simpa using hget, hne, hc, hsum⟩

/-- The `i`-th sleep taken by the spin loop lasts the starting backoff plus
`i` further backoff units — linear growth. -/
theorem acquireLoop_sleeps (bu : Nat) : ∀ (fuel b : Nat) (sched : List (Nat × Nat))
    (i d : Nat), ((acquireLoop bu fuel b sched).2.1)[i]? = some d → d = b + i * bu := by
  intro fuel
  induction fuel with
  | zero => intro b sched i d h; simp [acquireLoop] at h
  | succ fuel ih =>
      intro b sched i d h
      match sched with
      | [] => simp [acquireLoop] at h
      | (obs, cur) :: rest =>
          rw [acquireLoop] at h
          simp only [compare_and_swap_snd] at h
          by_cases h0 : obs = 0
          · rw [if_pos h0] at h
            match i with
            | 0 =>
                simp at h
                omega
            | i + 1 =>
                simp only [List.getElem?_cons_succ] at h
                have := ih (b + bu) rest i d h
                rw [Nat.succ_mul]
                omega
          · rw [if_neg h0] at h
            by_cases hcc : cur = obs
            · rw [if_neg (by simpa using hcc)] at h
              simp at h
            · rw [if_pos (by simpa using hcc)] at h
              match i with
              | 0 =>
                  simp at h
                  omega
              | i + 1 =>
                  simp only [List.getElem?_cons_succ] at h
                  have := ih (b + bu) rest i d h
                  rw [Nat.succ_mul]
                  omega

/-- If the shared counter is zero at the moment of every compare-and-swap of
the spin loop, the loop never claims a permit: the call cannot return. -/
theorem acquireLoop_stuck_zero (bu : Nat) : ∀ (fuel b : Nat) (sched : List (Nat × Nat)),
    (∀ p ∈ sched, p.2 = 0) → (acquireLoop bu fuel b sched).1 = none := by
  intro fuel
  induction fuel with
  | zero => intro b sched hz; simp [acquireLoop]
  | succ fuel ih =>
      intro b sched hz
      match sched with
      | [] => simp [acquireLoop]
      | (obs, cur) :: rest =>
          have hcur : cur = 0 := hz (obs, cur) (List.mem_cons_self _ _)
          have hrest : ∀ p ∈ rest, p.2 = 0 := fun p hp => hz p (List.mem_cons_of_mem _ hp)
          rw [acquireLoop]
          simp only [compare_and_swap_snd]
          by_cases h0 : obs = 0
          · rw [if_pos h0]
            exact ih (b + bu) rest hrest
          · rw [if_neg h0]
            rw [if_pos (by simp [hcur]; omega)]
            exact ih (b + bu) rest hrest

/-- Every compare-and-swap the spin loop executes expects a strictly
positive value and writes exactly that value minus one. -/
theorem acquireLoop_cas_log (bu : Nat) : ∀ (fuel b : Nat) (sched : List (Nat × Nat)),
    ∀ p ∈ (acquireLoop bu fuel b sched).2.2, 0 < p.1 ∧ p.2 = p.1 - 1 := by
  intro fuel
  induction fuel with
  | zero => intro b sched p hp; simp [acquireLoop] at hp
  | succ fuel ih =>
      intro b sched p hp
      match sched with
      | [] => simp [acquireLoop] at hp
      | (obs, cur) :: rest =>
          rw [acquireLoop] at hp
          simp only [compare_and_swap_snd] at hp
          by_cases h0 : obs = 0
          · rw [if_pos h0] at hp
            exact ih (b + bu) rest p hp
          · rw [if_neg h0] at hp
            by_cases hcc : cur = obs
            · rw [if_neg (by simpa using hcc)] at hp
              simp at hp
              subst hp
              exact ⟨by omega, rfl⟩
            · rw [if_pos (by simpa using hcc)] at hp
              simp only [List.mem_cons] at hp
              rcases hp with hp | hp
              · subst hp
                exact ⟨by omega, rfl⟩
              · exact ih (b + bu) rest p hp

/-- C2: a call to `acquire` that returns did so by exiting the spin loop at
the first iteration whose compare-and-swap succeeded: at that iteration
(index `sl.length` — the loop slept once per earlier failed iteration) the
loaded value `obs` was nonzero, the shared counter still equalled `obs`
when the compare-and-swap ran, and the counter was left at `obs - 1` — a
net decrement of exactly 1 (`c + 1 = obs`). -/
theorem C2_acquire_net_decrement (self : CountingSemaphore) (fuel : Nat)
    (sched : List (Nat × Nat)) (c : Nat) (sl : List Nat) (cl : List (Nat × Nat))
    (h : self.acquire fuel sched = (some c, sl, cl)) :
    ∃ obs, sched[sl.length]? = some (obs, obs) ∧ obs ≠ 0 ∧ c = obs - 1 ∧ c + 1 = obs :=
  acquireLoop_success self.backoff fuel self.backoff sched c sl cl h

/-- C2 witness: on `new(2, 1)` with one contended iteration then a clean
one, `acquire` returns after one sleep with the counter decremented 2 → 1. -/
theorem C2_acquire_net_decrement_witness :
    ∃ obs, [(0, 5), (2, 2)][([1] : List Nat).length]? = some (obs, obs) ∧ obs ≠ 0 ∧
      1 = obs - 1 ∧ 1 + 1 = obs :=
  C2_acquire_net_decrement (CountingSemaphore.new 2 1) 3 [(0, 5), (2, 2)]
    1 [1] [(2, 1)] (by decide)

/-- C5: an `acquire` in progress cannot return while the counter stays 0:
if the shared counter is 0 at every compare-and-swap point, the loop spins
without claiming a permit; and whenever `acquire` does return a guard, some
iteration performed a successful compare-and-swap from a strictly positive
observed counter value. -/
theorem C5_no_return_while_zero (self : CountingSemaphore) (fuel : Nat)
    (sched : List (Nat × Nat)) :
    ((∀ p ∈ sched, p.2 = 0) → (self.acquire fuel sched).1 = none) ∧
    (∀ c sl cl, self.acquire fuel sched = (some c, sl, cl) →
      ∃ p ∈ sched, p.1 ≠ 0 ∧ p.2 = p.1 ∧ c + 1 = p.1) := by
  constructor
  · exact fun hz => acquireLoop_stuck_zero self.backoff fuel self.backoff sched hz
  · intro c sl cl h
    obtain ⟨obs, hget, hne, hc, hsum⟩ :=
      acquireLoop_success self.backoff fuel self.backoff sched c sl cl h
    exact ⟨(obs, obs), List.getElem?_mem hget, hne, rfl, hsum⟩

/-- C5 witness: with the counter pinned at 0 for two iterations, `acquire`
on `new(1, 1)` does not return. -/
theorem C5_no_return_while_zero_witness :
    ((CountingSemaphore.new 1 1).acquire 3 [(0, 0), (0, 0)]).1 = none :=
  (C5_no_return_while_zero (CountingSemaphore.new 1 1) 3 [(0, 0), (0, 0)]).1 (by decide)

/-- C6: every compare-and-swap executed by `acquire` is guarded by
`count > 0`: its expected value is strictly positive and the value written
is exactly the expected value minus 1, so the subtraction `count - 1` never
underflows (it stays nonnegative as an integer). -/
theorem C6_cas_guarded (self : CountingSemaphore) (fuel : Nat)
    (sched : List (Nat × Nat)) (p : Nat × Nat)
    (hp : p ∈ (self.acquire fuel sched).2.2) :
    0 < p.1 ∧ p.2 = p.1 - 1 ∧ (0 : Int) ≤ (p.1 : Int) - 1 := by
  obtain ⟨h1, h2⟩ := acquireLoop_cas_log self.backoff fuel self.backoff sched p hp
  exact ⟨h1, h2, by omega⟩

/-- C6 witness: the single compare-and-swap of a clean acquire on `new(2, 1)`
expects 2 and writes 1. -/
theorem C6_cas_guarded_witness :
    0 < ((2, 1) : Nat × Nat).1 ∧ ((2, 1) : Nat × Nat).2 = ((2, 1) : Nat × Nat).1 - 1 ∧
      (0 : Int) ≤ (((2, 1) : Nat × Nat).1 : Int) - 1 :=
  C6_cas_guarded (CountingSemaphore.new 2 1) 3 [(0, 5), (2, 2)] (2, 1) (by decide)

/-- C7: within one call to `acquire`, the `i`-th sleep (0-based) lasts
exactly `i + 1` backoff units — the 1×, 2×, 3×, … schedule — and the sleep
durations are non-decreasing along the call. -/
theorem C7_backoff_schedule (self : CountingSemaphore) (fuel : Nat)
    (sched : List (Nat × Nat)) (i d : Nat)
    (h : ((self.acquire fuel sched).2.1)[i]? = some d) :
    d = (i + 1) * self.backoff ∧
      ∀ j e, j ≤ i → ((self.acquire fuel sched).2.1)[j]? = some e → e ≤ d := by
  have hd := acquireLoop_sleeps self.backoff fuel self.backoff sched i d h
  constructor
  · rw [Nat.succ_mul]; omega
  · intro j e hji he
    have hev := acquireLoop_sleeps self.backoff fuel self.backoff sched j e he
    have hmul : j * self.backoff ≤ i * self.backoff := Nat.mul_le_mul_right _ hji
    omega

/-- C7 witness: two contended iterations on `new(3, 2)` sleep 2 then 4
ticks; the second sleep is `(1 + 1) * 2`. -/
theorem C7_backoff_schedule_witness :
    (4 : Nat) = (1 + 1) * (CountingSemaphore.new 3 2).backoff :=
  (C7_backoff_schedule (CountingSemaphore.new 3 2) 5 [(0, 0), (0, 0), (1, 1)]
    1 4 (by decide)).1

/-- A single atomic event from the zero-capacity start configuration leaves
it unchanged and cannot be a successful acquire. -/
theorem semStep_from_zero {bu : Nat} {a : Act} {s' : SemState}
    (h : SemStep (initState 0 bu) a s') : s' = initState 0 bu ∧ a ≠ Act.acq := by
  cases h with
  | acq obs hobs hcas =>
      rw [compare_and_swap_snd] at hcas
      exact absurd hcas.symm hobs
  | fail obs h =>
      refine ⟨?_, by decide⟩
      by_cases h0 : obs = 0
      · simp [initState, h0]
      · simp [initState, h0, compare_and_swap, Ne.symm h0]
  | rel hheld =>
      exact absurd rfl hheld
  | read =>
      exact ⟨rfl, by decide⟩

/-- Every execution from the zero-capacity start configuration stays there,
and contains no successful acquire event. -/
theorem zeroCap_reach (bu : Nat) : ∀ (tr : List Act) (s : SemState),
    SemSteps (initState 0 bu) tr s → s = initState 0 bu ∧ tr.count Act.acq = 0 := by
  intro tr
  induction tr with
  | nil =>
      intro s h
      cases h
      exact ⟨rfl, rfl⟩
  | cons a tr ih =>
      intro s h
      cases h with
      | cons hstep htr =>
          obtain ⟨heq, hne⟩ := semStep_from_zero hstep
          rw [heq] at htr
          obtain ⟨h1, h2⟩ := ih s htr
          refine ⟨h1, ?_⟩
          rw [List.count_cons]
          simp [h2, hne]

/-- C8: `new(0, backoff_unit)` does not fail — it builds the semaphore with
counter 0 — and the semaphore can never be acquired: with no guard in
existence the counter stays 0 forever (every reachable configuration has
counter 0 and no acquire event ever occurs), and an `acquire` call whose
compare-and-swap points all see the pinned-at-0 counter spins without
returning, for every fuel bound. -/
theorem C8_zero_capacity (bu fuel : Nat) (sched : List (Nat × Nat))
    (tr : List Act) (s : SemState)
    (hz : ∀ p ∈ sched, p.2 = 0)
    (htr : SemSteps (initState 0 bu) tr s) :
    CountingSemaphore.new 0 bu = ⟨0, bu⟩ ∧
    ((CountingSemaphore.new 0 bu).acquire fuel sched).1 = none ∧
    s.count = 0 ∧ tr.count Act.acq = 0 := by
  obtain ⟨hs, hacq⟩ := zeroCap_reach bu tr s htr
  exact ⟨rfl, acquireLoop_stuck_zero bu fuel bu sched hz, by rw [hs]; rfl, hacq⟩

/-- C8 witness: a zero-capacity semaphore with one observation step and one
spinning acquire iteration. -/
theorem C8_zero_capacity_witness :
    CountingSemaphore.new 0 6 = ⟨0, 6⟩ ∧
    ((CountingSemaphore.new 0 6).acquire 4 [(0, 0)]).1 = none ∧
    (initState 0 6).count = 0 ∧ ([Act.read] : List Act).count Act.acq = 0 :=
  C8_zero_capacity 6 4 [(0, 0)] [Act.read] (initState 0 6) (by decide)
    (SemSteps.cons (SemStep.read (initState 0 6)) (SemSteps.nil _))

/-- C10: the stored backoff field is never modified after construction —
every interleaved execution preserves it — and the backoff schedule is
local to each `acquire` call: whenever a call sleeps at all, its first
sleep is exactly one backoff unit, independent of any earlier contention. -/
theorem C10_backoff_frame (s s' : SemState) (tr : List Act)
    (self : CountingSemaphore) (fuel : Nat) (sched : List (Nat × Nat))
    (d : Nat) (rest : List Nat)
    (h1 : SemSteps s tr s')
    (h2 : (self.acquire fuel sched).2.1 = d :: rest) :
    s'.backoff = s.backoff ∧ d = self.backoff := by
  refine ⟨(semSteps_preserve h1).2, ?_⟩
  have hget : ((self.acquire fuel sched).2.1)[0]? = some d := by rw [h2]; simp
  have := acquireLoop_sleeps self.backoff fuel self.backoff sched 0 d hget
  omega

/-- C10 witness: a one-event execution preserves the backoff field, and a
contended acquire on `new(1, 4)` sleeps 4 ticks first. -/
theorem C10_backoff_frame_witness :
    (⟨1, 0, 9⟩ : SemState).backoff = (⟨1, 0, 9⟩ : SemState).backoff ∧
    (4 : Nat) = (CountingSemaphore.new 1 4).backoff :=
  C10_backoff_frame ⟨1, 0, 9⟩ ⟨1, 0, 9⟩ [Act.read] (CountingSemaphore.new 1 4)
    3 [(0, 0), (1, 1)] 4 []
    (SemSteps.cons (SemStep.read _) (SemSteps.nil _)) (by decide)

end MeteredConcurrency
